import Mathlib

/-!
Verification of the document-state layer of `grammarkdown-server`
(`src/lib/documents.ts` and `src/lib/server.ts`), as a shallow embedding.

The `DocumentManager` class is modelled as a pure state machine: the mutable
fields of the class become the fields of `ManagerState`, each method becomes a
function `ManagerState → ManagerState` (returning extra values where the source
does), and every `Emitter.fire` is recorded in an event trace.  The external
collaborators (`Host.getHost()`'s file system, `Files.uriToFilePath`) are a
record of opaque functions `ManagerHost`; the compiler collaborator
(`new Grammar(...)` / `grammar.check()`) is opaque except for the sequence of
file names its read-callback requests during a rebuild, which is passed to
`refreshGrammar` as an explicit list.
-/

namespace GrammarkdownServer

/-- `GrammarDocument` from `documents.ts`: the constructor sets only
`filename`; `uri`/`text` start as JS `undefined` (here `none`) and the three
booleans start `undefined`, which every use reads as `false`. -/
structure GrammarDocument where
  uri : Option String
  filename : String
  text : Option String
  isOpenOnClient : Bool
  isOpenOnServer : Bool
  marked : Bool
deriving DecidableEq, Repr

/-- `new GrammarDocument(filename)`. -/
def newGrammarDocument (filename : String) : GrammarDocument :=
  { uri := none
    filename
    text := none
    isOpenOnClient := false
    isOpenOnServer := false
    marked := false }

/-- The external collaborators used by `DocumentManager`: the native host
returned by `Host.getHost()` (`readFile`, `resolveFile`, `normalizeFile`) and
`Files.uriToFilePath` from `vscode-languageserver` (modelled total; URIs on
which the real function yields `undefined` are outside the claims considered
here). -/
structure ManagerHost where
  readFile : String → Option String
  resolveFile : String → String
  normalizeFile : String → String
  uriToFilePath : String → String

/-- The argument `id: string | TextDocumentIdentifier` taken by the public
methods: either a native path string or a `TextDocumentIdentifier` (which
carries a `uri`). -/
inductive Locator where
  | path (s : String)
  | docId (uri : String)
deriving DecidableEq, Repr

/-- The named emitters of `DocumentManager`; each document event carries the
`filename` of the document object passed to `fire`, and `_didUpdate` carries
the manager itself. -/
inductive ManagerEvent where
  | didOpen (filename : String)
  | didOpenOnClient (filename : String)
  | didOpenOnServer (filename : String)
  | didChangeContent (filename : String)
  | didClose (filename : String)
  | didCloseOnClient (filename : String)
  | didCloseOnServer (filename : String)
  | didUpdate
deriving DecidableEq, Repr

/-- The value stored in `_grammar`: `new Grammar(rootNames, {}, host, prev)`.
Only the root file list is observable at this layer; parsing and checking are
the opaque compiler collaborator. -/
structure GrammarHandle where
  rootNames : List String
deriving DecidableEq, Repr

/-- The mutable fields of `DocumentManager`, plus the trace of fired events.
`_documents` is a `Dictionary<GrammarDocument>` keyed by filename; since every
insertion uses the document's own `filename` as the key, it is modelled as a
list of documents looked up by `filename`. -/
structure ManagerState where
  documents : List GrammarDocument
  rootNames : Option (List String)
  grammar : Option GrammarHandle
  updateSuspended : Nat
  updateRequested : Bool
  updating : Bool
  events : List ManagerEvent
deriving DecidableEq, Repr

/-- The state of a freshly constructed `DocumentManager`. -/
def initialManagerState : ManagerState :=
  { documents := []
    rootNames := none
    grammar := none
    updateSuspended := 0
    updateRequested := false
    updating := false
    events := [] }

/-- `Dictionary.get(this._documents, filename)`. -/
def getDocument (docs : List GrammarDocument) (filename : String) :
    Option GrammarDocument :=
  docs.find? (fun d => d.filename == filename)

/-- In-place mutation of the document object stored under `filename`
(JS objects are shared references, so field writes are visible through the
dictionary). -/
def replaceDocument (docs : List GrammarDocument) (filename : String)
    (d : GrammarDocument) : List GrammarDocument :=
  docs.map (fun e => if e.filename = filename then d else e)

/-- `delete this._documents[filename]` (the `closeDocument` method). -/
def removeDocument (docs : List GrammarDocument) (filename : String) :
    List GrammarDocument :=
  docs.filter (fun e => e.filename ≠ filename)

/-- `emitter.fire(...)`: append the event to the trace. -/
def fire (st : ManagerState) (e : ManagerEvent) : ManagerState :=
  { st with events := st.events ++ [e] }

/-- `invalidateGrammar()`. -/
def invalidateGrammar (st : ManagerState) : ManagerState :=
  { st with rootNames := none, grammar := none }

/-- `reportUpdate()`: guarded by the `_updating` reentrancy flag; when not
updating it sets the flag, clears `_updateRequested`, fires `_didUpdate`, and
restores the flag in the `finally` block. -/
def reportUpdate (st : ManagerState) : ManagerState :=
  if st.updating then st
  else
    let st1 := { st with updating := true, updateRequested := false }
    let st2 := fire st1 .didUpdate
    { st2 with updating := false }

/-- `requestUpdate()`. -/
def requestUpdate (st : ManagerState) : ManagerState :=
  if st.updateSuspended > 0 then { st with updateRequested := true }
  else reportUpdate st

/-- `suspendUpdates()`. -/
def suspendUpdates (st : ManagerState) : ManagerState :=
  { st with updateSuspended := st.updateSuspended + 1 }

/-- `resumeUpdates()`. -/
def resumeUpdates (st : ManagerState) : ManagerState :=
  if st.updateSuspended > 0 then
    let st1 := { st with updateSuspended := st.updateSuspended - 1 }
    if st1.updateSuspended = 0 && st1.updateRequested then reportUpdate st1
    else st1
  else st

/-- `normalizeFilename(id)`: `Files.uriToFilePath` for a
`TextDocumentIdentifier`, then `resolveFile` and `normalizeFile` on the native
host. -/
def normalizeFilename (host : ManagerHost) (id : Locator) : String :=
  let filename := match id with
    | .path s => s
    | .docId uri => host.uriToFilePath uri
  host.normalizeFile (host.resolveFile filename)

/-- `openDocumentOnClient(document)` (the watch/unwatch calls in the source
are commented-out stubs). -/
def openDocumentOnClient (d : GrammarDocument) : GrammarDocument :=
  if d.isOpenOnClient then d else { d with isOpenOnClient := true }

/-- `openDocumentOnServer(document)`. -/
def openDocumentOnServer (d : GrammarDocument) : GrammarDocument :=
  if d.isOpenOnServer then d else { d with isOpenOnServer := true }

/-- `closeDocumentOnClient(document)`: clears the flag; removes the document
from the registry (returning `true`) when it is not also open on the
server. -/
def closeDocumentOnClient (st : ManagerState) (d : GrammarDocument) :
    ManagerState × Bool :=
  if d.isOpenOnClient then
    if d.isOpenOnServer then
      ({ st with documents :=
          replaceDocument st.documents d.filename { d with isOpenOnClient := false } },
       false)
    else
      ({ st with documents := removeDocument st.documents d.filename }, true)
  else (st, false)

/-- `closeDocumentOnServer(document)`. -/
def closeDocumentOnServer (st : ManagerState) (d : GrammarDocument) :
    ManagerState × Bool :=
  if d.isOpenOnServer then
    if d.isOpenOnClient then
      ({ st with documents :=
          replaceDocument st.documents d.filename { d with isOpenOnServer := false } },
       false)
    else
      ({ st with documents := removeDocument st.documents d.filename }, true)
  else (st, false)

end GrammarkdownServer

namespace GrammarkdownServer

/-! ### `normalizeUri` (locator-to-URI conversion)

`normalizeUri(id)` for a plain string `id` is
`id.split(/[\\/]/).map(encodeURIComponent).join("/")`, prefixed with
`"file://"` when the *encoded* pathname starts with `"/"`, else with
`"file:///"`.  Modelled at the `List Char` level (JS strings are sequences of
code units; the claims here only exercise scalar values, which `Char`
captures). -/

/-- A character matched by the split regex `[\\/]`. -/
def isPathSep (c : Char) : Bool := c == '/' || c == '\\'

/-- `id.split(/[\\/]/)`: every separator occurrence splits, empty segments are
kept (as in JS `String.prototype.split`), and the result is never empty. -/
def splitSegs : List Char → List (List Char)
  | [] => [[]]
  | c :: rest =>
    match splitSegs rest with
    | [] => [[]]
    | s :: ss => if isPathSep c then [] :: s :: ss else (c :: s) :: ss

/-- The characters `encodeURIComponent` leaves unescaped:
`A-Z a-z 0-9 - _ . ! ~ * ' ( )`. -/
def isUriUnreserved (c : Char) : Bool :=
  ('A' ≤ c && c ≤ 'Z') || ('a' ≤ c && c ≤ 'z') || ('0' ≤ c && c ≤ '9') ||
  c == '-' || c == '_' || c == '.' || c == '!' || c == '~' || c == '*' ||
  c == '\'' || c == '(' || c == ')'

/-- Upper-case hexadecimal digit for `n < 16`. -/
def hexDigit (n : Nat) : Char :=
  if n < 10 then Char.ofNat (48 + n) else Char.ofNat (55 + n)

/-- The UTF-8 bytes of a Unicode scalar value, as `Nat`s. -/
def utf8Bytes (n : Nat) : List Nat :=
  if n < 128 then [n]
  else if n < 2048 then [192 + n / 64, 128 + n % 64]
  else if n < 65536 then [224 + n / 4096, 128 + (n / 64) % 64, 128 + n % 64]
  else [240 + n / 262144, 128 + (n / 4096) % 64, 128 + (n / 64) % 64,
        128 + n % 64]

/-- `%XX` escapes for a byte sequence. -/
def percentEncodeBytes : List Nat → List Char
  | [] => []
  | b :: bs => '%' :: hexDigit (b / 16) :: hexDigit (b % 16) ::
      percentEncodeBytes bs

/-- `encodeURIComponent` on a single character. -/
def encodeChar (c : Char) : List Char :=
  if isUriUnreserved c then [c] else percentEncodeBytes (utf8Bytes c.toNat)

/-- `encodeURIComponent` on one path segment. -/
def encodeSeg : List Char → List Char
  | [] => []
  | c :: s => encodeChar c ++ encodeSeg s

/-- `segments.join("/")`. -/
def joinSlash : List (List Char) → List Char
  | [] => []
  | [s] => s
  | s :: ss => s ++ '/' :: joinSlash ss

/-- The `pathname` local of `normalizeUri`. -/
def uriPathname (p : List Char) : List Char :=
  joinSlash ((splitSegs p).map encodeSeg)

/-- `normalizeUri` on a plain (non-`TextDocumentIdentifier`) string: the
branch condition is `pathname.charAt(0) === "/"`, i.e. on the *encoded*
pathname. -/
def normalizeUriChars (p : List Char) : List Char :=
  if (uriPathname p).head? = some '/' then "file://".data ++ uriPathname p
  else "file:///".data ++ uriPathname p

/-- String-level wrapper for `normalizeUri` on a plain path. -/
def normalizeUriPath (s : String) : String := ⟨normalizeUriChars s.data⟩

/-- `normalizeUri(id)` for both shapes of `id`: a `TextDocumentIdentifier`
returns its own `uri` unchanged. -/
def normalizeUriOf (id : Locator) : String :=
  match id with
  | .docId uri => uri
  | .path s => normalizeUriPath s

/-- Stated from the claim's words (C8), for comparison with the source's
`normalizeUriChars`: same split/encode/join, but the prefix is chosen by
whether the *original* path begins with a leading slash. -/
def claimNormalizeUriChars (p : List Char) : List Char :=
  if p.head? = some '/' then "file://".data ++ uriPathname p
  else "file:///".data ++ uriPathname p

/-- String-level wrapper for `claimNormalizeUriChars`. -/
def claimNormalizeUriPath (s : String) : String := ⟨claimNormalizeUriChars s.data⟩

/-- The amended conversion recipe: prefix `"file://"` exactly when the
original path begins with a slash *or a backslash* (equivalently, when the
encoded pathname begins with `"/"`), else `"file:///"`. -/
def amendedNormalizeUriChars (p : List Char) : List Char :=
  if p.head? = some '/' ∨ p.head? = some '\\' then "file://".data ++ uriPathname p
  else "file:///".data ++ uriPathname p

/-- String-level wrapper for `amendedNormalizeUriChars`. -/
def amendedNormalizeUriPath (s : String) : String := ⟨amendedNormalizeUriChars s.data⟩

end GrammarkdownServer

namespace GrammarkdownServer

/-! ### The public operations of `DocumentManager` -/

/-- `open(id)`: reads the file through the native host; on failure performs no
mutation.  On success it creates the entity if absent, overwrites `uri` and
`text`, opens it on the server side, invalidates the grammar when the text
differed, and fires events in source order (`_didOpen` when created,
`_didCloseOnServer` when `!wasOpenOnServer` — exactly as the source is
written — then `_didChangeContent` and `requestUpdate()` when the text
differed). -/
def openOp (host : ManagerHost) (st : ManagerState) (id : Locator) :
    ManagerState :=
  let filename := normalizeFilename host id
  match host.readFile filename with
  | none => st
  | some text =>
    let found := getDocument st.documents filename
    let created := found.isNone
    let d0 := found.getD (newGrammarDocument filename)
    let changed := d0.text ≠ some text
    let wasOpenOnServer := d0.isOpenOnServer
    let d2 := openDocumentOnServer
      { d0 with uri := some (normalizeUriOf id), text := some text }
    let st1 := { st with documents :=
      if created then st.documents ++ [d2]
      else replaceDocument st.documents filename d2 }
    let st2 := if changed then invalidateGrammar st1 else st1
    let st3 := if created then fire st2 (.didOpen d2.filename) else st2
    let st4 := if wasOpenOnServer then st3
      else fire st3 (.didCloseOnServer d2.filename)
    if changed then requestUpdate (fire st4 (.didChangeContent d2.filename))
    else st4

/-- `close(id)`: no-op when the document is untracked; otherwise closes the
server side (which may remove the entity and then invalidates the grammar),
fires `_didCloseOnServer` when `!wasOpenOnServer` (source polarity), and when
the document is not open on the client fires `_didClose` and requests an
update. -/
def closeOp (host : ManagerHost) (st : ManagerState) (id : Locator) :
    ManagerState :=
  let filename := normalizeFilename host id
  match getDocument st.documents filename with
  | none => st
  | some d =>
    let wasOpenOnServer := d.isOpenOnServer
    let p := closeDocumentOnServer st d
    let st2 := if p.2 then invalidateGrammar p.1 else p.1
    let st3 := if wasOpenOnServer then st2
      else fire st2 (.didCloseOnServer d.filename)
    if d.isOpenOnClient then st3
    else requestUpdate (fire st3 (.didClose d.filename))

/-- The shared body of `handleOpenClientDocument` and (after selecting the
last content change) `handleUpdateClientDocument`: both set `uri` and `text`
wholesale, open the document on the client side, and fire
`_didOpen` / `_didOpenOnClient` / `_didChangeContent` under the same guards as
the server-side `open`. -/
def openClientWithText (host : ManagerHost) (st : ManagerState)
    (uri text : String) : ManagerState :=
  let filename := normalizeFilename host (.docId uri)
  let found := getDocument st.documents filename
  let created := found.isNone
  let d0 := found.getD (newGrammarDocument filename)
  let changed := d0.text ≠ some text
  let wasOpenOnClient := d0.isOpenOnClient
  let d2 := openDocumentOnClient { d0 with uri := some uri, text := some text }
  let st1 := { st with documents :=
    if created then st.documents ++ [d2]
    else replaceDocument st.documents filename d2 }
  let st2 := if changed then invalidateGrammar st1 else st1
  let st3 := if created then fire st2 (.didOpen d2.filename) else st2
  let st4 := if wasOpenOnClient then st3
    else fire st3 (.didOpenOnClient d2.filename)
  if changed then requestUpdate (fire st4 (.didChangeContent d2.filename))
  else st4

/-- `handleOpenClientDocument({uri, text})`. -/
def handleOpenClientDocument (host : ManagerHost) (st : ManagerState)
    (uri text : String) : ManagerState :=
  openClientWithText host st uri text

/-- `handleUpdateClientDocument({uri, contentChanges})`: only the last entry
of `contentChanges` is applied (full-document sync); with no entries the
notification is ignored. -/
def handleUpdateClientDocument (host : ManagerHost) (st : ManagerState)
    (uri : String) (contentChanges : List String) : ManagerState :=
  match contentChanges.getLast? with
  | none => st
  | some text => openClientWithText host st uri text

/-- `handleCloseClientDocument({uri})`. -/
def handleCloseClientDocument (host : ManagerHost) (st : ManagerState)
    (uri : String) : ManagerState :=
  let filename := normalizeFilename host (.docId uri)
  match getDocument st.documents filename with
  | none => st
  | some d =>
    let wasOpenOnClient := d.isOpenOnClient
    let p := closeDocumentOnClient st d
    let st2 := if p.2 then invalidateGrammar p.1 else p.1
    let st3 := if wasOpenOnClient then st2
      else fire st2 (.didCloseOnClient d.filename)
    if d.isOpenOnServer then st3
    else requestUpdate (fire st3 (.didClose d.filename))

/-- The private `readFile(filename)` callback handed to the compiler
collaborator (`Host.getHost(filename => this.readFile(filename))`): creates a
server-open entity for an unseen readable file, and marks whatever entity it
ends up reading.  Note it performs no normalization of its argument. -/
def readFileCb (host : ManagerHost) (st : ManagerState) (filename : String) :
    ManagerState :=
  match getDocument st.documents filename with
  | some d =>
    { st with documents :=
        replaceDocument st.documents filename { d with marked := true } }
  | none =>
    match host.readFile filename with
    | none => st
    | some text =>
      let d := openDocumentOnServer
        { newGrammarDocument filename with text := some text }
      { st with documents := st.documents ++ [{ d with marked := true }] }

/-- One iteration of the sweep loop at the end of `refreshGrammar()`:
`if (!document.marked && !document.isOpenOnClient) this.close(document.filename)`. -/
def sweepStep (host : ManagerHost) (s : ManagerState) (d : GrammarDocument) :
    ManagerState :=
  if !d.marked && !d.isOpenOnClient then closeOp host s (.path d.filename)
  else s

/-- `refreshGrammar()`, parameterized by `readList`: the sequence of file
names the compiler collaborator's `check()` requests through the
read-callback during this rebuild.  Phases in source order: save/set
`_updating`; one pass over the registry collecting client-open documents as
roots and setting `marked` accordingly; assign `_rootNames` and `_grammar`;
run `check()` (the read-callback calls); sweep a snapshot of the registry,
closing every entity that is unmarked and not client-open (the loop's
condition reads fields that nothing in the loop body mutates, so the
snapshot values are the live values); finally restore `_updating`. -/
def refreshGrammar (host : ManagerHost) (readList : List String)
    (st : ManagerState) : ManagerState :=
  let wasUpdating := st.updating
  let st0 := { st with updating := true }
  let docs1 := st0.documents.map (fun d =>
    if d.isOpenOnClient then { d with marked := true }
    else { d with marked := false })
  let roots := (st0.documents.filter (fun d => d.isOpenOnClient)).map
    (fun d => d.filename)
  let st1 := { st0 with
    documents := docs1
    rootNames := some roots
    grammar := some ⟨roots⟩ }
  let st2 := readList.foldl (readFileCb host) st1
  let snapshot := st2.documents
  let st3 := snapshot.foldl (sweepStep host) st2
  { st3 with updating := wasUpdating }

/-- The public `grammar` accessor: rebuilds when `_grammar` is unset and
returns the (possibly re-invalidated) field. -/
def grammarGet (host : ManagerHost) (readList : List String)
    (st : ManagerState) : Option GrammarHandle × ManagerState :=
  match st.grammar with
  | none =>
    let st' := refreshGrammar host readList st
    (st'.grammar, st')
  | some g => (some g, st)

/-- The public operations quantified over in the registry-membership
invariant (C1). -/
inductive ManagerOp where
  | serverOpen (id : Locator)
  | serverClose (id : Locator)
  | clientOpen (uri text : String)
  | clientUpdate (uri : String) (contentChanges : List String)
  | clientClose (uri : String)
  | compilerRead (filename : String)
deriving DecidableEq, Repr

/-- Dispatch one public operation. -/
def stepOp (host : ManagerHost) (st : ManagerState) : ManagerOp → ManagerState
  | .serverOpen id => openOp host st id
  | .serverClose id => closeOp host st id
  | .clientOpen uri text => handleOpenClientDocument host st uri text
  | .clientUpdate uri cs => handleUpdateClientDocument host st uri cs
  | .clientClose uri => handleCloseClientDocument host st uri
  | .compilerRead filename => readFileCb host st filename

/-- Run a sequence of public operations from the freshly constructed
manager. -/
def runOps (host : ManagerHost) (ops : List ManagerOp) : ManagerState :=
  ops.foldl (stepOp host) initialManagerState

/-- Number of `_didUpdate` firings (the "state updated" reports) in a
trace. -/
def countUpdates (evs : List ManagerEvent) : Nat :=
  evs.count ManagerEvent.didUpdate

/-! ### Concrete instances used to exercise the model on closed inputs -/

/-- A host whose file system resolves and normalizes trivially and reads every
file as `"t"`. -/
def idHost : ManagerHost :=
  { readFile := fun _ => some "t"
    resolveFile := id
    normalizeFile := id
    uriToFilePath := id }

/-- A manager that is in the middle of reporting an update (`_updating` set,
no suspension). -/
def reentrantState : ManagerState :=
  { initialManagerState with updating := true }

/-- A document open on both the client and the server. -/
def bothOpenDoc : GrammarDocument :=
  { uri := some "file:///a"
    filename := "a"
    text := some "t"
    isOpenOnClient := true
    isOpenOnServer := true
    marked := false }

/-- A registry holding exactly `bothOpenDoc`. -/
def bothOpenState : ManagerState :=
  { initialManagerState with documents := [bothOpenDoc] }

/-- A document held open only by the server (a dependency from an earlier
rebuild). -/
def serverOnlyDoc : GrammarDocument :=
  { uri := none
    filename := "dep"
    text := some "t"
    isOpenOnClient := false
    isOpenOnServer := true
    marked := false }

/-- A registry holding exactly `serverOnlyDoc`. -/
def serverOnlyState : ManagerState :=
  { initialManagerState with documents := [serverOnlyDoc] }

/-- The predicate of the registry-membership invariant: every registered
document is open on at least one side. -/
def registryFlagsInv (st : ManagerState) : Prop :=
  ∀ d ∈ st.documents, d.isOpenOnClient = true ∨ d.isOpenOnServer = true

/-- Every unmarked registry entry is stored under its canonical key (its
filename is a fixed point of resolve-then-normalize).  This holds for the
whole registry before a rebuild whenever keys are canonical, and the
read-callback only ever adds entries it immediately marks, so the sweep only
ever closes canonical keys. -/
def unmarkedCanonical (host : ManagerHost) (docs : List GrammarDocument) : Prop :=
  ∀ e ∈ docs, e.marked = false →
    host.normalizeFile (host.resolveFile e.filename) = e.filename

end GrammarkdownServer

namespace GrammarkdownServer

/-! ## Basic facts about the update/report machinery -/

@[simp] theorem fire_documents (st : ManagerState) (e : ManagerEvent) :
    (fire st e).documents = st.documents := rfl

@[simp] theorem fire_grammar (st : ManagerState) (e : ManagerEvent) :
    (fire st e).grammar = st.grammar := rfl

@[simp] theorem fire_rootNames (st : ManagerState) (e : ManagerEvent) :
    (fire st e).rootNames = st.rootNames := rfl

@[simp] theorem fire_updateSuspended (st : ManagerState) (e : ManagerEvent) :
    (fire st e).updateSuspended = st.updateSuspended := rfl

@[simp] theorem fire_updating (st : ManagerState) (e : ManagerEvent) :
    (fire st e).updating = st.updating := rfl

@[simp] theorem fire_updateRequested (st : ManagerState) (e : ManagerEvent) :
    (fire st e).updateRequested = st.updateRequested := rfl

@[simp] theorem fire_events (st : ManagerState) (e : ManagerEvent) :
    (fire st e).events = st.events ++ [e] := rfl

@[simp] theorem invalidateGrammar_documents (st : ManagerState) :
    (invalidateGrammar st).documents = st.documents := rfl

@[simp] theorem invalidateGrammar_events (st : ManagerState) :
    (invalidateGrammar st).events = st.events := rfl

@[simp] theorem invalidateGrammar_grammar (st : ManagerState) :
    (invalidateGrammar st).grammar = none := rfl

@[simp] theorem invalidateGrammar_updateSuspended (st : ManagerState) :
    (invalidateGrammar st).updateSuspended = st.updateSuspended := rfl

@[simp] theorem invalidateGrammar_updating (st : ManagerState) :
    (invalidateGrammar st).updating = st.updating := rfl

@[simp] theorem invalidateGrammar_updateRequested (st : ManagerState) :
    (invalidateGrammar st).updateRequested = st.updateRequested := rfl

theorem reportUpdate_documents (st : ManagerState) :
    (reportUpdate st).documents = st.documents := by
  unfold reportUpdate; split <;> rfl

theorem reportUpdate_grammar (st : ManagerState) :
    (reportUpdate st).grammar = st.grammar := by
  unfold reportUpdate; split <;> rfl

theorem reportUpdate_rootNames (st : ManagerState) :
    (reportUpdate st).rootNames = st.rootNames := by
  unfold reportUpdate; split <;> rfl

theorem reportUpdate_updateSuspended (st : ManagerState) :
    (reportUpdate st).updateSuspended = st.updateSuspended := by
  unfold reportUpdate; split <;> rfl

theorem requestUpdate_documents (st : ManagerState) :
    (requestUpdate st).documents = st.documents := by
  unfold requestUpdate; split
  · rfl
  · exact reportUpdate_documents st

theorem requestUpdate_grammar (st : ManagerState) :
    (requestUpdate st).grammar = st.grammar := by
  unfold requestUpdate; split
  · rfl
  · exact reportUpdate_grammar st

theorem requestUpdate_rootNames (st : ManagerState) :
    (requestUpdate st).rootNames = st.rootNames := by
  unfold requestUpdate; split
  · rfl
  · exact reportUpdate_rootNames st

theorem requestUpdate_updateSuspended (st : ManagerState) :
    (requestUpdate st).updateSuspended = st.updateSuspended := by
  unfold requestUpdate; split
  · rfl
  · exact reportUpdate_updateSuspended st

/-- A `requestUpdate` while the suspension counter is positive only records
the pending flag. -/
theorem requestUpdate_of_suspended (st : ManagerState)
    (h : 0 < st.updateSuspended) :
    requestUpdate st = { st with updateRequested := true } := by
  unfold requestUpdate
  simp [h]

/-! ## C2: reentrant `requestUpdate` -/

/-- C2 counterexample: with the reentrancy flag `_updating` set and the
suspension counter at zero, `requestUpdate()` leaves the manager state
entirely unchanged — in particular `_updateRequested` stays `false`, so the
reentrant request is NOT recorded as pending (and nothing can dispatch it
after the report completes). -/
theorem c2_reentrant_request_dropped :
    requestUpdate reentrantState = reentrantState ∧
    (requestUpdate reentrantState).updateRequested = false := by decide

/-- C2 (amended): if `requestUpdate` is invoked while an update report is in
progress (the reentrancy flag is set) and the suspension counter is zero, the
call is a complete no-op: it does not fire a second synchronous report, but it
also records nothing — the request is silently dropped rather than being
recorded as pending. -/
theorem c2_reentrant_request_noop (st : ManagerState)
    (hupd : st.updating = true) (hsusp : st.updateSuspended = 0) :
    requestUpdate st = st := by
  unfold requestUpdate reportUpdate
  simp [hupd, hsusp]

/-- Witness for `c2_reentrant_request_noop` at the concrete reentrant
state. -/
theorem c2_reentrant_request_noop_witness :
    requestUpdate reentrantState = reentrantState :=
  c2_reentrant_request_noop reentrantState rfl rfl

/-! ## C3: events fired by `close` -/

/-- C3: evaluating `close` on a document that is open on BOTH client and
server: the server flag is cleared and the entity stays registered, but no
event fires at all — the source's guard `if (!wasOpenOnServer)` fires
`_didCloseOnServer` exactly when the document was NOT open on the server, so
the "otherwise fires a closed-on-server event" part of the claim fails on
this input. -/
theorem c3_close_both_open_fires_no_event :
    (closeOp idHost bothOpenState (.path "a")).events = [] ∧
    getDocument (closeOp idHost bothOpenState (.path "a")).documents "a" =
      some { bothOpenDoc with isOpenOnServer := false } := by decide

/-! ## C9: idempotence of `normalizeFilename` -/

/-- C9: `normalizeFilename` is idempotent, under the hypothesis that the
file-system collaborator's `resolveFile` and `normalizeFile` act as the
identity on already-resolved-and-normalized paths. -/
theorem c9_normalizeFilename_idempotent (host : ManagerHost) (id : Locator)
    (hres : ∀ s, host.resolveFile (host.normalizeFile (host.resolveFile s)) =
      host.normalizeFile (host.resolveFile s))
    (hnorm : ∀ s, host.normalizeFile (host.normalizeFile (host.resolveFile s)) =
      host.normalizeFile (host.resolveFile s)) :
    normalizeFilename host (.path (normalizeFilename host id)) =
      normalizeFilename host id := by
  cases id <;> simp [normalizeFilename, hres, hnorm]

/-- Witness for `c9_normalizeFilename_idempotent` on the identity host. -/
theorem c9_normalizeFilename_idempotent_witness :
    normalizeFilename idHost (.path (normalizeFilename idHost (.path "a"))) =
      normalizeFilename idHost (.path "a") :=
  c9_normalizeFilename_idempotent idHost (.path "a")
    (fun _ => rfl) (fun _ => rfl)

end GrammarkdownServer

namespace GrammarkdownServer

/-! ## C8: locator-to-URI conversion -/

theorem splitSegs_ne_nil (p : List Char) : splitSegs p ≠ [] := by
  cases p with
  | nil => simp [splitSegs]
  | cons c rest =>
    unfold splitSegs
    cases h : splitSegs rest with
    | nil => simp
    | cons s ss => dsimp only; split <;> simp

theorem utf8Bytes_ne_nil (n : Nat) : utf8Bytes n ≠ [] := by
  unfold utf8Bytes
  split
  · simp
  · split
    · simp
    · split <;> simp

/-- `encodeURIComponent` of any character yields a nonempty string that does
not start with `'/'` (a slash is never unreserved, so it would be
percent-escaped). -/
theorem encodeChar_head (c : Char) :
    ∃ a t, encodeChar c = a :: t ∧ a ≠ '/' := by
  unfold encodeChar
  by_cases hc : isUriUnreserved c = true
  · rw [if_pos hc]
    refine ⟨c, [], rfl, ?_⟩
    intro h
    subst h
    exact absurd hc (by decide)
  · rw [if_neg hc]
    cases hb : utf8Bytes c.toNat with
    | nil => exact absurd hb (utf8Bytes_ne_nil c.toNat)
    | cons b bs =>
      exact ⟨'%', _, rfl, by decide⟩

theorem head?_append_of_ne_nil {x y : List Char} (hx : x ≠ []) :
    (x ++ y).head? = x.head? := by
  cases x with
  | nil => exact absurd rfl hx
  | cons a t => rfl

/-- The encoded pathname starts with `'/'` exactly when the original path
starts with a slash or a backslash. -/
theorem uriPathname_head (p : List Char) :
    (uriPathname p).head? = some '/' ↔
      (p.head? = some '/' ∨ p.head? = some '\\') := by
  cases p with
  | nil => decide
  | cons c rest =>
    obtain ⟨s, ss, hsplit⟩ :
        ∃ s ss, splitSegs rest = s :: ss := by
      cases h : splitSegs rest with
      | nil => exact absurd h (splitSegs_ne_nil rest)
      | cons s ss => exact ⟨s, ss, rfl⟩
    by_cases hc : isPathSep c = true
    · have hpath : uriPathname (c :: rest) =
          '/' :: joinSlash (encodeSeg s :: ss.map encodeSeg) := by
        unfold uriPathname splitSegs
        rw [hsplit]
        simp [hc, joinSlash, encodeSeg]
      have hor : c = '/' ∨ c = '\\' := by
        have := hc
        unfold isPathSep at this
        rcases Bool.or_eq_true_iff.mp this with h | h
        · exact Or.inl (by exact_mod_cast beq_iff_eq.mp h)
        · exact Or.inr (by exact_mod_cast beq_iff_eq.mp h)
      simp only [hpath, List.head?_cons]
      constructor
      · intro _
        rcases hor with h | h <;> simp [h]
      · intro _
        trivial
    · obtain ⟨a, t, henc, ha⟩ := encodeChar_head c
      have hseg : encodeSeg (c :: s) = a :: (t ++ encodeSeg s) := by
        simp only [encodeSeg]
        rw [henc, List.cons_append]
      have hpath : (uriPathname (c :: rest)).head? = some a := by
        unfold uriPathname splitSegs
        rw [hsplit]
        simp only [hc, if_false, Bool.false_eq_true, List.map_cons]
        cases hss : ss.map encodeSeg with
        | nil => simp [joinSlash, hseg]
        | cons z zs =>
          show (joinSlash (encodeSeg (c :: s) :: z :: zs)).head? = some a
          have : joinSlash (encodeSeg (c :: s) :: z :: zs) =
              encodeSeg (c :: s) ++ '/' :: joinSlash (z :: zs) := rfl
          rw [this, hseg]
          rfl
      have hcsep : ¬(c = '/' ∨ c = '\\') := by
        intro hor
        apply hc
        unfold isPathSep
        rcases hor with h | h <;> simp [h]
      rw [hpath]
      simp only [List.head?_cons, Option.some.injEq]
      exact ⟨fun h => absurd h ha, fun hor => absurd hor hcsep⟩

end GrammarkdownServer

namespace GrammarkdownServer

/-- C8 counterexample: for the path `"\foo"` (leading backslash, so not
"absolute with a leading slash"), the source's `normalizeUri` yields
`"file:///foo"` — it branches on the first character of the ENCODED pathname —
while the claim's recipe (prefix `"file:///"` unless the original path begins
with a slash) yields `"file:////foo"`. -/
theorem c8_normalizeUri_counterexample :
    normalizeUriPath "\\foo" = "file:///foo" ∧
    claimNormalizeUriPath "\\foo" = "file:////foo" ∧
    normalizeUriPath "\\foo" ≠ claimNormalizeUriPath "\\foo" := by decide

/-- C8 (amended): for every non-URI path string `p`, `normalizeUri(p)` equals
the string obtained by splitting `p` into path segments (on slashes and
backslashes), percent-encoding each segment independently, joining with `"/"`,
and prefixing `"file://"` if `p` began with a leading slash OR a leading
backslash (equivalently, if the encoded pathname begins with `"/"`), else
prefixing `"file:///"`. -/
theorem c8_normalizeUri_amended (s : String) :
    normalizeUriPath s = amendedNormalizeUriPath s := by
  unfold normalizeUriPath amendedNormalizeUriPath
  unfold normalizeUriChars amendedNormalizeUriChars
  by_cases hp : (uriPathname s.data).head? = some '/'
  · rw [if_pos hp, if_pos ((uriPathname_head s.data).mp hp)]
  · rw [if_neg hp, if_neg (fun hor => hp ((uriPathname_head s.data).mpr hor))]

end GrammarkdownServer

namespace GrammarkdownServer

/-! ## C7: idempotent second open -/

/-- C7: re-opening a tracked document with text identical to its current text
is invisible to the update machinery: both the server-side `open` (when the
file system returns the same text) and a client open notification with the
same text fire no event at all (in particular no content-changed event), issue
no update request, and leave the cached compilation state (`_grammar`,
`_rootNames`) untouched. -/
theorem c7_second_open_identical_text (host : ManagerHost) (st : ManagerState)
    (id : Locator) (t : String) (d : GrammarDocument)
    (hlook : getDocument st.documents (normalizeFilename host id) = some d)
    (hread : host.readFile (normalizeFilename host id) = some t)
    (htext : d.text = some t)
    (hsrv : d.isOpenOnServer = true)
    (uri2 t2 : String) (e : GrammarDocument)
    (hlook2 : getDocument st.documents (normalizeFilename host (.docId uri2)) = some e)
    (htext2 : e.text = some t2)
    (hcli : e.isOpenOnClient = true) :
    ((openOp host st id).events = st.events ∧
     (openOp host st id).grammar = st.grammar ∧
     (openOp host st id).rootNames = st.rootNames ∧
     (openOp host st id).updateRequested = st.updateRequested) ∧
    ((handleOpenClientDocument host st uri2 t2).events = st.events ∧
     (handleOpenClientDocument host st uri2 t2).grammar = st.grammar ∧
     (handleOpenClientDocument host st uri2 t2).rootNames = st.rootNames ∧
     (handleOpenClientDocument host st uri2 t2).updateRequested = st.updateRequested) := by
  have hserver : openOp host st id =
      { st with documents := replaceDocument st.documents (normalizeFilename host id) (openDocumentOnServer { d with uri := some (normalizeUriOf id), text := some t }) } := by
    simp only [openOp, hread, hlook, Option.isNone_some, Option.getD_some,
      htext, hsrv, Bool.false_eq_true, if_false, ne_eq, not_true_eq_false,
      if_true]
  have hclient : handleOpenClientDocument host st uri2 t2 =
      { st with documents := replaceDocument st.documents (normalizeFilename host (.docId uri2)) (openDocumentOnClient { e with uri := some uri2, text := some t2 }) } := by
    simp only [handleOpenClientDocument, openClientWithText, hlook2,
      Option.isNone_some, Option.getD_some, htext2, hcli, Bool.false_eq_true,
      if_false, ne_eq, not_true_eq_false, if_true]
  rw [hserver, hclient]
  exact ⟨⟨rfl, rfl, rfl, rfl⟩, ⟨rfl, rfl, rfl, rfl⟩⟩

/-- Witness for `c7_second_open_identical_text`: `bothOpenDoc` re-opened on
either side with its current text `"t"`. -/
theorem c7_second_open_identical_text_witness :
    ((openOp idHost bothOpenState (.path "a")).events = bothOpenState.events ∧
     (openOp idHost bothOpenState (.path "a")).grammar = bothOpenState.grammar ∧
     (openOp idHost bothOpenState (.path "a")).rootNames = bothOpenState.rootNames ∧
     (openOp idHost bothOpenState (.path "a")).updateRequested = bothOpenState.updateRequested) ∧
    ((handleOpenClientDocument idHost bothOpenState "a" "t").events = bothOpenState.events ∧
     (handleOpenClientDocument idHost bothOpenState "a" "t").grammar = bothOpenState.grammar ∧
     (handleOpenClientDocument idHost bothOpenState "a" "t").rootNames = bothOpenState.rootNames ∧
     (handleOpenClientDocument idHost bothOpenState "a" "t").updateRequested = bothOpenState.updateRequested) :=
  c7_second_open_identical_text idHost bothOpenState (.path "a") "t"
    bothOpenDoc (by decide) rfl rfl rfl "a" "t" bothOpenDoc (by decide) rfl rfl

end GrammarkdownServer

namespace GrammarkdownServer

/-! ## C4: update batching under suspension -/

theorem countUpdates_append (a b : List ManagerEvent) :
    countUpdates (a ++ b) = countUpdates a + countUpdates b := by
  simp [countUpdates, List.count_append]

theorem openClientWithText_updateSuspended (host : ManagerHost)
    (st : ManagerState) (uri t : String) (h : 0 < st.updateSuspended) :
    (openClientWithText host st uri t).updateSuspended = st.updateSuspended := by
  unfold openClientWithText
  dsimp only
  split <;> split <;> split <;>
    simp [requestUpdate, reportUpdate, fire, invalidateGrammar, h]

theorem openClientWithText_updating (host : ManagerHost)
    (st : ManagerState) (uri t : String) (h : 0 < st.updateSuspended) :
    (openClientWithText host st uri t).updating = st.updating := by
  unfold openClientWithText
  dsimp only
  split <;> split <;> split <;>
    simp [requestUpdate, reportUpdate, fire, invalidateGrammar, h]

/-- While updates are suspended, a client open/change mutation fires no
`_didUpdate` event (it may fire document events, which `countUpdates`
ignores). -/
theorem openClientWithText_countUpdates (host : ManagerHost)
    (st : ManagerState) (uri t : String) (h : 0 < st.updateSuspended) :
    countUpdates (openClientWithText host st uri t).events =
      countUpdates st.events := by
  unfold openClientWithText
  dsimp only
  split <;> split <;> split <;>
    simp [requestUpdate, reportUpdate, fire, invalidateGrammar, h, countUpdates,
      List.count_append, List.count_cons, List.count_nil]

theorem openClientWithText_updateRequested_mono (host : ManagerHost)
    (st : ManagerState) (uri t : String) (h : 0 < st.updateSuspended)
    (hr : st.updateRequested = true) :
    (openClientWithText host st uri t).updateRequested = true := by
  unfold openClientWithText
  dsimp only
  split <;> split <;> split <;>
    simp [requestUpdate, reportUpdate, fire, invalidateGrammar, h, hr]

/-- A client text for an untracked document is always a content change, so it
records a pending update while suspended. -/
theorem openClientWithText_absent_requested (host : ManagerHost)
    (st : ManagerState) (uri t : String) (h : 0 < st.updateSuspended)
    (habs : getDocument st.documents (normalizeFilename host (.docId uri)) = none) :
    (openClientWithText host st uri t).updateRequested = true := by
  unfold openClientWithText
  dsimp only
  rw [habs]
  simp [requestUpdate, fire, invalidateGrammar, h, newGrammarDocument]

theorem handleUpdateClientDocument_single (host : ManagerHost)
    (st : ManagerState) (uri t : String) :
    handleUpdateClientDocument host st uri [t] =
      openClientWithText host st uri t := by
  simp [handleUpdateClientDocument]

/-- Folding client changes while suspended keeps the counter, the reentrancy
flag and the `_didUpdate` count, and keeps the pending flag set. -/
theorem foldChanges_suspended (host : ManagerHost) (uri : String)
    (L : List String) (st : ManagerState)
    (h : 0 < st.updateSuspended) (hr : st.updateRequested = true) :
    (L.foldl (fun s t => openClientWithText host s uri t) st).updateSuspended = st.updateSuspended ∧
    (L.foldl (fun s t => openClientWithText host s uri t) st).updating = st.updating ∧
    countUpdates (L.foldl (fun s t => openClientWithText host s uri t) st).events = countUpdates st.events ∧
    (L.foldl (fun s t => openClientWithText host s uri t) st).updateRequested = true := by
  induction L generalizing st with
  | nil => exact ⟨rfl, rfl, rfl, hr⟩
  | cons a as ih =>
    simp only [List.foldl_cons]
    have hs := openClientWithText_updateSuspended host st uri a h
    have hu := openClientWithText_updating host st uri a h
    have hc := openClientWithText_countUpdates host st uri a h
    have hq := openClientWithText_updateRequested_mono host st uri a h hr
    have h' : 0 < (openClientWithText host st uri a).updateSuspended := by
      rw [hs]; exact h
    obtain ⟨i1, i2, i3, i4⟩ := ih (openClientWithText host st uri a) h' hq
    exact ⟨i1.trans hs, i2.trans hu, i3.trans hc, i4⟩

/-- `resumeUpdates` from suspension depth 1 with a pending request reports
exactly one update. -/
theorem resumeUpdates_fires (st : ManagerState)
    (hs : st.updateSuspended = 1) (hr : st.updateRequested = true)
    (hu : st.updating = false) :
    countUpdates (resumeUpdates st).events = countUpdates st.events + 1 := by
  simp [resumeUpdates, reportUpdate, hs, hr, hu, fire, countUpdates,
    List.count_append, List.count_cons]

/-- C4: starting from an idle manager (no suspension, no report in progress,
nothing pending), suspend updates, apply `N ≥ 1` client content changes to a
previously untracked document (each one a genuine content change, each issuing
a `requestUpdate`), then resume: no "state updated" report fires during the
suspended phase, and exactly one fires immediately upon the counter reaching
zero in `resumeUpdates` — not `N` and not zero. -/
theorem c4_update_batching (host : ManagerHost) (uri : String)
    (L : List String) (st : ManagerState)
    (hL : L ≠ [])
    (hs : st.updateSuspended = 0) (hu : st.updating = false)
    (hr : st.updateRequested = false)
    (habs : getDocument st.documents (normalizeFilename host (.docId uri)) = none)
    (hchain : List.Chain' (fun a b => a ≠ b) L) :
    countUpdates ((L.foldl (fun s t => handleUpdateClientDocument host s uri [t]) (suspendUpdates st)).events) = countUpdates st.events ∧
    countUpdates ((resumeUpdates (L.foldl (fun s t => handleUpdateClientDocument host s uri [t]) (suspendUpdates st))).events) = countUpdates st.events + 1 := by
  cases L with
  | nil => exact absurd rfl hL
  | cons a as =>
    have hs1 : (suspendUpdates st).updateSuspended = 1 := by
      simp [suspendUpdates, hs]
    have h1 : 0 < (suspendUpdates st).updateSuspended := by
      rw [hs1]; exact Nat.one_pos
    have habs1 : getDocument (suspendUpdates st).documents
        (normalizeFilename host (.docId uri)) = none := habs
    simp only [List.foldl_cons, handleUpdateClientDocument_single]
    have hstepS := openClientWithText_updateSuspended host (suspendUpdates st) uri a h1
    have hstepU := openClientWithText_updating host (suspendUpdates st) uri a h1
    have hstepC := openClientWithText_countUpdates host (suspendUpdates st) uri a h1
    have hstepR := openClientWithText_absent_requested host (suspendUpdates st) uri a h1 habs1
    have h2 : 0 < (openClientWithText host (suspendUpdates st) uri a).updateSuspended := by
      rw [hstepS]; exact h1
    obtain ⟨f1, f2, f3, f4⟩ := foldChanges_suspended host uri as
      (openClientWithText host (suspendUpdates st) uri a) h2 hstepR
    have hcount : countUpdates ((as.foldl (fun s t => openClientWithText host s uri t) (openClientWithText host (suspendUpdates st) uri a)).events) = countUpdates st.events := by
      rw [f3, hstepC]
      rfl
    refine ⟨hcount, ?_⟩
    have hfs : (as.foldl (fun s t => openClientWithText host s uri t) (openClientWithText host (suspendUpdates st) uri a)).updateSuspended = 1 := by
      rw [f1, hstepS, hs1]
    have hfu : (as.foldl (fun s t => openClientWithText host s uri t) (openClientWithText host (suspendUpdates st) uri a)).updating = false := by
      rw [f2, hstepU]
      exact hu
    rw [resumeUpdates_fires _ hfs f4 hfu, hcount]

/-- Witness for `c4_update_batching`: two changes to `"u"` while suspended on
a fresh manager produce exactly one report at resume. -/
theorem c4_update_batching_witness :
    countUpdates (((["a", "b"] : List String).foldl (fun s t => handleUpdateClientDocument idHost s "u" [t]) (suspendUpdates initialManagerState)).events) = countUpdates initialManagerState.events ∧
    countUpdates ((resumeUpdates ((["a", "b"] : List String).foldl (fun s t => handleUpdateClientDocument idHost s "u" [t]) (suspendUpdates initialManagerState))).events) = countUpdates initialManagerState.events + 1 :=
  c4_update_batching idHost "u" ["a", "b"] initialManagerState
    (by decide) rfl rfl rfl (by decide) (List.chain'_pair.mpr (by decide))

end GrammarkdownServer

namespace GrammarkdownServer

/-! ## C1: registry membership invariant -/

theorem mem_replaceDocument {docs : List GrammarDocument} {f : String}
    {d e : GrammarDocument} (he : e ∈ replaceDocument docs f d) :
    e ∈ docs ∨ e = d := by
  unfold replaceDocument at he
  obtain ⟨x, hx, hxe⟩ := List.mem_map.mp he
  by_cases hxf : x.filename = f
  · right
    rw [if_pos hxf] at hxe
    exact hxe.symm
  · left
    rw [if_neg hxf] at hxe
    exact hxe ▸ hx

theorem mem_removeDocument {docs : List GrammarDocument} {f : String}
    {e : GrammarDocument} (he : e ∈ removeDocument docs f) : e ∈ docs :=
  (List.mem_filter.mp he).1

theorem mem_of_getDocument {docs : List GrammarDocument} {f : String}
    {d : GrammarDocument} (h : getDocument docs f = some d) : d ∈ docs :=
  List.mem_of_find?_eq_some h

theorem filename_of_getDocument {docs : List GrammarDocument} {f : String}
    {d : GrammarDocument} (h : getDocument docs f = some d) : d.filename = f := by
  have := List.find?_some h
  exact beq_iff_eq.mp this

theorem openDocumentOnServer_isOpenOnServer (d : GrammarDocument) :
    (openDocumentOnServer d).isOpenOnServer = true := by
  unfold openDocumentOnServer
  split
  · assumption
  · rfl

theorem openDocumentOnClient_isOpenOnClient (d : GrammarDocument) :
    (openDocumentOnClient d).isOpenOnClient = true := by
  unfold openDocumentOnClient
  split
  · assumption
  · rfl

theorem registryFlagsInv_openOp (host : ManagerHost) (st : ManagerState)
    (id : Locator) (hinv : registryFlagsInv st) :
    registryFlagsInv (openOp host st id) := by
  unfold openOp
  dsimp only
  cases hread : host.readFile (normalizeFilename host id) with
  | none => exact hinv
  | some text =>
    intro e he
    simp only [apply_ite ManagerState.documents, requestUpdate_documents,
      fire_documents, invalidateGrammar_documents, ite_self] at he
    split at he
    · rcases List.mem_append.mp he with h | h
      · exact hinv e h
      · right
        rw [List.mem_singleton.mp h]
        exact openDocumentOnServer_isOpenOnServer _
    · rcases mem_replaceDocument he with h | h
      · exact hinv e h
      · right
        rw [h]
        exact openDocumentOnServer_isOpenOnServer _

theorem registryFlagsInv_openClientWithText (host : ManagerHost)
    (st : ManagerState) (uri t : String) (hinv : registryFlagsInv st) :
    registryFlagsInv (openClientWithText host st uri t) := by
  unfold openClientWithText
  dsimp only
  intro e he
  simp only [apply_ite ManagerState.documents, requestUpdate_documents,
    fire_documents, invalidateGrammar_documents, ite_self] at he
  split at he
  · rcases List.mem_append.mp he with h | h
    · exact hinv e h
    · left
      rw [List.mem_singleton.mp h]
      exact openDocumentOnClient_isOpenOnClient _
  · rcases mem_replaceDocument he with h | h
    · exact hinv e h
    · left
      rw [h]
      exact openDocumentOnClient_isOpenOnClient _

theorem registryFlagsInv_closeOp (host : ManagerHost) (st : ManagerState)
    (id : Locator) (hinv : registryFlagsInv st) :
    registryFlagsInv (closeOp host st id) := by
  unfold closeOp
  dsimp only
  cases hlook : getDocument st.documents (normalizeFilename host id) with
  | none => exact hinv
  | some d =>
    intro e he
    simp only [apply_ite ManagerState.documents, requestUpdate_documents,
      fire_documents, invalidateGrammar_documents, ite_self] at he
    unfold closeDocumentOnServer at he
    by_cases hsrv : d.isOpenOnServer = true
    · rw [if_pos hsrv] at he
      by_cases hcli : d.isOpenOnClient = true
      · rw [if_pos hcli] at he
        dsimp only at he
        rcases mem_replaceDocument he with h | h
        · exact hinv e h
        · left
          rw [h]
          exact hcli
      · rw [if_neg hcli] at he
        dsimp only at he
        exact hinv e (mem_removeDocument he)
    · rw [if_neg hsrv] at he
      exact hinv e he

theorem registryFlagsInv_handleCloseClientDocument (host : ManagerHost)
    (st : ManagerState) (uri : String) (hinv : registryFlagsInv st) :
    registryFlagsInv (handleCloseClientDocument host st uri) := by
  unfold handleCloseClientDocument
  dsimp only
  cases hlook : getDocument st.documents (normalizeFilename host (.docId uri)) with
  | none => exact hinv
  | some d =>
    intro e he
    simp only [apply_ite ManagerState.documents, requestUpdate_documents,
      fire_documents, invalidateGrammar_documents, ite_self] at he
    unfold closeDocumentOnClient at he
    by_cases hcli : d.isOpenOnClient = true
    · rw [if_pos hcli] at he
      by_cases hsrv : d.isOpenOnServer = true
      · rw [if_pos hsrv] at he
        dsimp only at he
        rcases mem_replaceDocument he with h | h
        · exact hinv e h
        · right
          rw [h]
          exact hsrv
      · rw [if_neg hsrv] at he
        dsimp only at he
        exact hinv e (mem_removeDocument he)
    · rw [if_neg hcli] at he
      exact hinv e he

theorem registryFlagsInv_readFileCb (host : ManagerHost) (st : ManagerState)
    (filename : String) (hinv : registryFlagsInv st) :
    registryFlagsInv (readFileCb host st filename) := by
  unfold readFileCb
  dsimp only
  cases hlook : getDocument st.documents filename with
  | some d =>
    dsimp only
    intro e he
    rcases mem_replaceDocument he with h | h
    · exact hinv e h
    · have hd := hinv d (mem_of_getDocument hlook)
      rw [h]
      exact hd
  | none =>
    cases hread : host.readFile filename with
    | none => exact hinv
    | some text =>
      dsimp only
      intro e he
      rcases List.mem_append.mp he with h | h
      · exact hinv e h
      · right
        rw [List.mem_singleton.mp h]
        exact openDocumentOnServer_isOpenOnServer _

theorem registryFlagsInv_stepOp (host : ManagerHost) (st : ManagerState)
    (op : ManagerOp) (hinv : registryFlagsInv st) :
    registryFlagsInv (stepOp host st op) := by
  cases op with
  | serverOpen id => exact registryFlagsInv_openOp host st id hinv
  | serverClose id => exact registryFlagsInv_closeOp host st id hinv
  | clientOpen uri text =>
    exact registryFlagsInv_openClientWithText host st uri text hinv
  | clientUpdate uri cs =>
    dsimp only [stepOp]
    unfold handleUpdateClientDocument
    cases cs.getLast? with
    | none => exact hinv
    | some text =>
      exact registryFlagsInv_openClientWithText host st uri text hinv
  | clientClose uri =>
    exact registryFlagsInv_handleCloseClientDocument host st uri hinv
  | compilerRead filename =>
    exact registryFlagsInv_readFileCb host st filename hinv

theorem registryFlagsInv_runOps (host : ManagerHost) (ops : List ManagerOp) :
    registryFlagsInv (runOps host ops) := by
  unfold runOps
  have hgen : ∀ st : ManagerState, registryFlagsInv st →
      registryFlagsInv (ops.foldl (stepOp host) st) := by
    induction ops with
    | nil => exact fun st h => h
    | cons op rest ih =>
      intro st h
      exact ih _ (registryFlagsInv_stepOp host st op h)
  exact hgen initialManagerState (fun d hd => absurd hd (List.not_mem_nil d))

/-- C1: after any sequence of the public operations (`open`, `close`, the
three client notification handlers, and the compiler read-callback) starting
from a fresh manager, every document present in the registry has
`isOpenOnClient ∨ isOpenOnServer`; equivalently, any transition that drops
both flags removes the entity within that same operation, so a
both-flags-false document is never registered at the end of an operation. -/
theorem c1_registry_membership_invariant (host : ManagerHost)
    (ops : List ManagerOp) (d : GrammarDocument)
    (hd : d ∈ (runOps host ops).documents) :
    d.isOpenOnClient = true ∨ d.isOpenOnServer = true :=
  registryFlagsInv_runOps host ops d hd

/-- Witness for `c1_registry_membership_invariant`: a single client open on a
fresh manager registers exactly one document, which is client-open. -/
theorem c1_registry_membership_invariant_witness :
    ({ uri := some "u"
       filename := "u"
       text := some "x"
       isOpenOnClient := true
       isOpenOnServer := false
       marked := false } : GrammarDocument).isOpenOnClient = true ∨
    ({ uri := some "u"
       filename := "u"
       text := some "x"
       isOpenOnClient := true
       isOpenOnServer := false
       marked := false } : GrammarDocument).isOpenOnServer = true :=
  c1_registry_membership_invariant idHost [.clientOpen "u" "x"] _ (by decide)

end GrammarkdownServer

namespace GrammarkdownServer

/-! ## Registry lookup lemmas (towards C5/C10) -/

theorem getDocument_eq_none_iff {docs : List GrammarDocument} {f : String} :
    getDocument docs f = none ↔ ∀ e ∈ docs, e.filename ≠ f := by
  unfold getDocument
  rw [List.find?_eq_none]
  simp

theorem getDocument_of_mem_nodup {docs : List GrammarDocument}
    (hnd : (docs.map (fun e => e.filename)).Nodup) {d : GrammarDocument}
    (hm : d ∈ docs) : getDocument docs d.filename = some d := by
  induction docs with
  | nil => cases hm
  | cons x tl ih =>
    rw [List.map_cons, List.nodup_cons] at hnd
    rcases List.mem_cons.mp hm with rfl | hmem
    · unfold getDocument
      rw [List.find?_cons_of_pos _ (by simp)]
    · have hne : x.filename ≠ d.filename := by
        intro hEq
        exact hnd.1 (hEq ▸ List.mem_map_of_mem (fun e => e.filename) hmem)
      unfold getDocument
      rw [List.find?_cons_of_neg _ (by simp [hne])]
      exact ih hnd.2 hmem

theorem getDocument_replaceDocument_ne {docs : List GrammarDocument}
    {f : String} {d : GrammarDocument} (hd : d.filename = f) {k : String}
    (hk : k ≠ f) :
    getDocument (replaceDocument docs f d) k = getDocument docs k := by
  induction docs with
  | nil => rfl
  | cons x tl ih =>
    unfold replaceDocument at ih ⊢
    rw [List.map_cons]
    by_cases hx : x.filename = f
    · rw [if_pos hx]
      unfold getDocument at ih ⊢
      rw [List.find?_cons_of_neg _ (by simp [hd]; exact fun h => hk h.symm),
        List.find?_cons_of_neg _ (by simp [hx]; exact fun h => hk h.symm)]
      exact ih
    · rw [if_neg hx]
      by_cases hxk : x.filename = k
      · unfold getDocument
        rw [List.find?_cons_of_pos _ (by simp [hxk]),
          List.find?_cons_of_pos _ (by simp [hxk])]
      · unfold getDocument at ih ⊢
        rw [List.find?_cons_of_neg _ (by simp [hxk]),
          List.find?_cons_of_neg _ (by simp [hxk])]
        exact ih

theorem getDocument_removeDocument_self (docs : List GrammarDocument)
    (f : String) : getDocument (removeDocument docs f) f = none := by
  rw [getDocument_eq_none_iff]
  intro e he
  have h := (List.mem_filter.mp he).2
  simpa using h

theorem getDocument_removeDocument_ne {docs : List GrammarDocument}
    {f k : String} (hk : k ≠ f) :
    getDocument (removeDocument docs f) k = getDocument docs k := by
  induction docs with
  | nil => rfl
  | cons x tl ih =>
    unfold removeDocument at ih ⊢
    rw [List.filter_cons]
    by_cases hx : x.filename = f
    · rw [if_neg (by simp [hx])]
      unfold getDocument at ih ⊢
      rw [List.find?_cons_of_neg _ (by simp [hx]; exact fun h => hk h.symm)]
      exact ih
    · rw [if_pos (by simp [hx])]
      by_cases hxk : x.filename = k
      · unfold getDocument
        rw [List.find?_cons_of_pos _ (by simp [hxk]),
          List.find?_cons_of_pos _ (by simp [hxk])]
      · unfold getDocument at ih ⊢
        rw [List.find?_cons_of_neg _ (by simp [hxk]),
          List.find?_cons_of_neg _ (by simp [hxk])]
        exact ih

theorem getDocument_append_some {docs l : List GrammarDocument} {k : String}
    {d1 : GrammarDocument} (h : getDocument docs k = some d1) :
    getDocument (docs ++ l) k = some d1 := by
  unfold getDocument at h ⊢
  rw [List.find?_append, h]
  rfl

theorem getDocument_map_of_keeps_filename
    (g : GrammarDocument → GrammarDocument)
    (hg : ∀ e, (g e).filename = e.filename) (docs : List GrammarDocument)
    (f : String) :
    getDocument (docs.map g) f = (getDocument docs f).map g := by
  induction docs with
  | nil => rfl
  | cons x tl ih =>
    rw [List.map_cons]
    by_cases hx : x.filename = f
    · unfold getDocument
      rw [List.find?_cons_of_pos _ (by simp [hg, hx]),
        List.find?_cons_of_pos _ (by simp [hx])]
      rfl
    · unfold getDocument at ih ⊢
      rw [List.find?_cons_of_neg _ (by simp [hg, hx]),
        List.find?_cons_of_neg _ (by simp [hx])]
      exact ih

theorem keys_map_of_keeps_filename (g : GrammarDocument → GrammarDocument)
    (hg : ∀ e, (g e).filename = e.filename) (docs : List GrammarDocument) :
    (docs.map g).map (fun e => e.filename) = docs.map (fun e => e.filename) := by
  rw [List.map_map]
  exact List.map_congr_left (fun e _ => hg e)

theorem keys_replaceDocument {docs : List GrammarDocument} {f : String}
    {d : GrammarDocument} (hd : d.filename = f) :
    (replaceDocument docs f d).map (fun e => e.filename) =
      docs.map (fun e => e.filename) := by
  induction docs with
  | nil => rfl
  | cons x tl ih =>
    unfold replaceDocument at ih ⊢
    rw [List.map_cons, List.map_cons, List.map_cons]
    by_cases hx : x.filename = f
    · rw [if_pos hx, hd, hx]
      rw [show (List.map (fun e => if e.filename = f then d else e) tl).map (fun e => e.filename) = tl.map (fun e => e.filename) from ih]
    · rw [if_neg hx]
      rw [show (List.map (fun e => if e.filename = f then d else e) tl).map (fun e => e.filename) = tl.map (fun e => e.filename) from ih]

theorem openDocumentOnServer_filename (d : GrammarDocument) :
    (openDocumentOnServer d).filename = d.filename := by
  unfold openDocumentOnServer
  split <;> rfl

end GrammarkdownServer

namespace GrammarkdownServer

/-! ## C5/C10: the rebuild's read phase and mark-and-sweep pass -/

/-- One compiler read for a different file preserves the lookup of a tracked
document, key uniqueness, and the canonical-key property of unmarked
entries. -/
theorem readFileCb_preserves (host : ManagerHost) (st : ManagerState)
    (f : String) {k : String} {d1 : GrammarDocument}
    (hk : f ≠ k)
    (hlook : getDocument st.documents k = some d1)
    (hnd : (st.documents.map (fun e => e.filename)).Nodup)
    (hmc : unmarkedCanonical host st.documents) :
    getDocument (readFileCb host st f).documents k = some d1 ∧
    ((readFileCb host st f).documents.map (fun e => e.filename)).Nodup ∧
    unmarkedCanonical host (readFileCb host st f).documents := by
  unfold readFileCb
  dsimp only
  cases hf : getDocument st.documents f with
  | some e =>
    have hef : e.filename = f := filename_of_getDocument hf
    dsimp only
    refine ⟨?_, ?_, ?_⟩
    · rw [getDocument_replaceDocument_ne (by simpa using hef) (Ne.symm hk)]
      exact hlook
    · rw [keys_replaceDocument (by simpa using hef)]
      exact hnd
    · intro x hx hxm
      rcases mem_replaceDocument hx with h | h
      · exact hmc x h hxm
      · rw [h] at hxm
        simp at hxm
  | none =>
    cases hr : host.readFile f with
    | none => exact ⟨hlook, hnd, hmc⟩
    | some text =>
      dsimp only
      have hnotin : ∀ e ∈ st.documents, e.filename ≠ f :=
        getDocument_eq_none_iff.mp hf
      have hndfn :
          ({ openDocumentOnServer { newGrammarDocument f with text := some text } with marked := true } : GrammarDocument).filename = f := by
        simp [openDocumentOnServer_filename, newGrammarDocument]
      refine ⟨getDocument_append_some hlook, ?_, ?_⟩
      · rw [List.map_append]
        rw [List.nodup_append]
        refine ⟨hnd, by simp, ?_⟩
        intro a ha
        simp only [List.map_cons, List.map_nil, List.mem_singleton, hndfn]
        obtain ⟨x, hxmem, hxa⟩ := List.mem_map.mp ha
        intro hEq
        exact hnotin x hxmem (by rw [← hxa] at hEq; exact hEq)
      · intro x hx hxm
        rcases List.mem_append.mp hx with h | h
        · exact hmc x h hxm
        · rw [List.mem_singleton.mp h] at hxm
          simp at hxm

/-- The whole read phase of a rebuild preserves those properties when none of
the read files is the tracked document's key. -/
theorem readFold_preserves (host : ManagerHost) (fs : List String)
    (st : ManagerState) {k : String} {d1 : GrammarDocument}
    (hks : ∀ f ∈ fs, f ≠ k)
    (hlook : getDocument st.documents k = some d1)
    (hnd : (st.documents.map (fun e => e.filename)).Nodup)
    (hmc : unmarkedCanonical host st.documents) :
    getDocument (fs.foldl (readFileCb host) st).documents k = some d1 ∧
    ((fs.foldl (readFileCb host) st).documents.map (fun e => e.filename)).Nodup ∧
    unmarkedCanonical host (fs.foldl (readFileCb host) st).documents := by
  induction fs generalizing st with
  | nil => exact ⟨hlook, hnd, hmc⟩
  | cons f fs ih =>
    rw [List.foldl_cons]
    obtain ⟨h1, h2, h3⟩ := readFileCb_preserves host st f
      (hks f (List.mem_cons_self f fs)) hlook hnd hmc
    exact ih (readFileCb host st f)
      (fun g hg => hks g (List.mem_cons_of_mem f hg)) h1 h2 h3

/-- A `close` whose normalized key differs from `k` does not affect the
lookup at `k`. -/
theorem closeOp_getDocument_ne (host : ManagerHost) (st : ManagerState)
    (id : Locator) {k : String} (hne : normalizeFilename host id ≠ k) :
    getDocument (closeOp host st id).documents k = getDocument st.documents k := by
  unfold closeOp
  dsimp only
  cases hlook : getDocument st.documents (normalizeFilename host id) with
  | none => rfl
  | some d =>
    have hdf : d.filename = normalizeFilename host id :=
      filename_of_getDocument hlook
    dsimp only
    simp only [apply_ite ManagerState.documents, requestUpdate_documents,
      fire_documents, invalidateGrammar_documents, ite_self]
    unfold closeDocumentOnServer
    by_cases hsrv : d.isOpenOnServer = true
    · rw [if_pos hsrv]
      by_cases hcli : d.isOpenOnClient = true
      · rw [if_pos hcli]
        dsimp only
        exact getDocument_replaceDocument_ne (by simp) (by rw [hdf]; exact Ne.symm hne)
      · rw [if_neg hcli]
        dsimp only
        exact getDocument_removeDocument_ne (by rw [hdf]; exact Ne.symm hne)
    · rw [if_neg hsrv]

/-- A `close` can never (re)introduce a registry entry. -/
theorem closeOp_none_preserved (host : ManagerHost) (st : ManagerState)
    (id : Locator) {k : String}
    (hk : getDocument st.documents k = none) :
    getDocument (closeOp host st id).documents k = none := by
  by_cases hne : normalizeFilename host id = k
  · unfold closeOp
    dsimp only
    rw [hne, hk]
    exact hk
  · rw [closeOp_getDocument_ne host st id hne]
    exact hk

/-- A `close` never resurrects an invalidated grammar. -/
theorem closeOp_grammar_none (host : ManagerHost) (st : ManagerState)
    (id : Locator) (hg : st.grammar = none) :
    (closeOp host st id).grammar = none := by
  unfold closeOp
  dsimp only
  cases hlook : getDocument st.documents (normalizeFilename host id) with
  | none => exact hg
  | some d =>
    dsimp only
    simp only [apply_ite ManagerState.grammar, requestUpdate_grammar,
      fire_grammar, invalidateGrammar_grammar, ite_self]
    unfold closeDocumentOnServer
    by_cases hsrv : d.isOpenOnServer = true
    · rw [if_pos hsrv]
      by_cases hcli : d.isOpenOnClient = true
      · rw [if_pos hcli]
        dsimp only
        simp [hg]
      · rw [if_neg hcli]
        dsimp only
        simp [hg]
    · rw [if_neg hsrv]
      dsimp only
      simp [hg]

/-- The sweep's `close` on an unmarked server-only document with a canonical
key removes it from the registry and invalidates the grammar. -/
theorem closeOp_sweep_removes (host : ManagerHost) (st : ManagerState)
    (d : GrammarDocument)
    (hnorm : normalizeFilename host (.path d.filename) = d.filename)
    (hlook : getDocument st.documents d.filename = some d)
    (hsrv : d.isOpenOnServer = true) (hcli : d.isOpenOnClient = false) :
    getDocument (closeOp host st (.path d.filename)).documents d.filename = none ∧
    (closeOp host st (.path d.filename)).grammar = none := by
  have hclose : closeDocumentOnServer st d =
      ({ st with documents := removeDocument st.documents d.filename }, true) := by
    unfold closeDocumentOnServer
    rw [if_pos hsrv, if_neg (by simp [hcli])]
  unfold closeOp
  dsimp only
  rw [hnorm, hlook]
  dsimp only
  rw [hclose]
  dsimp only
  rw [if_pos rfl, if_pos hsrv, if_neg (by simp [hcli])]
  constructor
  · simp only [requestUpdate_documents, fire_documents,
      invalidateGrammar_documents]
    exact getDocument_removeDocument_self st.documents d.filename
  · simp only [requestUpdate_grammar, fire_grammar, invalidateGrammar_grammar]

/-- Folding the sweep over documents none of whose (canonical) close keys is
`k` preserves the lookup at `k`. -/
theorem sweepFold_preserves_lookup (host : ManagerHost)
    (A : List GrammarDocument) (st : ManagerState) (k : String)
    (hA : ∀ e ∈ A, (!e.marked && !e.isOpenOnClient) = true →
      normalizeFilename host (.path e.filename) ≠ k) :
    getDocument (A.foldl (sweepStep host) st).documents k =
      getDocument st.documents k := by
  induction A generalizing st with
  | nil => rfl
  | cons e es ih =>
    rw [List.foldl_cons]
    rw [ih (sweepStep host st e) (fun x hx => hA x (List.mem_cons_of_mem e hx))]
    unfold sweepStep
    by_cases hcond : (!e.marked && !e.isOpenOnClient) = true
    · rw [if_pos hcond]
      exact closeOp_getDocument_ne host st _ (hA e (List.mem_cons_self e es) hcond)
    · rw [if_neg hcond]

/-- Once the swept document is gone and the grammar invalidated, the rest of
the sweep keeps it gone and keeps the grammar invalidated. -/
theorem sweepFold_none_grammar (host : ManagerHost)
    (B : List GrammarDocument) (st : ManagerState) (k : String)
    (hk : getDocument st.documents k = none) (hg : st.grammar = none) :
    getDocument (B.foldl (sweepStep host) st).documents k = none ∧
    (B.foldl (sweepStep host) st).grammar = none := by
  induction B generalizing st with
  | nil => exact ⟨hk, hg⟩
  | cons e es ih =>
    rw [List.foldl_cons]
    apply ih
    · unfold sweepStep
      by_cases hcond : (!e.marked && !e.isOpenOnClient) = true
      · rw [if_pos hcond]
        exact closeOp_none_preserved host st _ hk
      · rw [if_neg hcond]
        exact hk
    · unfold sweepStep
      by_cases hcond : (!e.marked && !e.isOpenOnClient) = true
      · rw [if_pos hcond]
        exact closeOp_grammar_none host st _ hg
      · rw [if_neg hcond]
        exact hg

end GrammarkdownServer

namespace GrammarkdownServer

/-- The heart of C5/C10: a registered document that is not client-open, whose
key is not read back by the compiler during the rebuild, is removed from the
registry by `refreshGrammar`'s sweep, and the sweep's `close` re-invalidates
the grammar that `refreshGrammar` had just assigned.  Requires the standing
well-formedness of the registry: keys are pairwise distinct and canonical. -/
theorem refreshGrammar_sweeps (host : ManagerHost) (readList : List String)
    (st : ManagerState) (d : GrammarDocument)
    (hmem : d ∈ st.documents)
    (hcli : d.isOpenOnClient = false) (hsrv : d.isOpenOnServer = true)
    (hnotread : d.filename ∉ readList)
    (hnodup : (st.documents.map (fun e => e.filename)).Nodup)
    (hcanon : ∀ e ∈ st.documents,
      host.normalizeFile (host.resolveFile e.filename) = e.filename) :
    getDocument (refreshGrammar host readList st).documents d.filename = none ∧
    (refreshGrammar host readList st).grammar = none := by
  unfold refreshGrammar
  dsimp only
  set g : GrammarDocument → GrammarDocument :=
    fun e => if e.isOpenOnClient = true then { e with marked := true }
      else { e with marked := false } with hg_def
  have hgfn : ∀ e, (g e).filename = e.filename := by
    intro e
    by_cases hc : e.isOpenOnClient = true <;> simp [hg_def, hc]
  have hgd : g d = { d with marked := false } := by
    simp [hg_def, hcli]
  -- facts about the state after the mark phase
  have hlook1 : getDocument (st.documents.map g) d.filename =
      some { d with marked := false } := by
    rw [getDocument_map_of_keeps_filename g hgfn]
    rw [getDocument_of_mem_nodup hnodup hmem]
    rw [show Option.map g (some d) = some (g d) from rfl, hgd]
  have hnd1 : ((st.documents.map g).map (fun e => e.filename)).Nodup := by
    rw [keys_map_of_keeps_filename g hgfn]
    exact hnodup
  have hmc1 : unmarkedCanonical host (st.documents.map g) := by
    intro x hx hxm
    obtain ⟨e, he, rfl⟩ := List.mem_map.mp hx
    rw [hgfn e]
    exact hcanon e he
  -- the read phase
  set st1 : ManagerState :=
    { st with
      documents := st.documents.map g
      rootNames := some ((st.documents.filter (fun e => e.isOpenOnClient)).map (fun e => e.filename))
      grammar := some ⟨(st.documents.filter (fun e => e.isOpenOnClient)).map (fun e => e.filename)⟩
      updating := true } with hst1_def
  have hks : ∀ f ∈ readList, f ≠ d.filename := by
    intro f hf hEq
    exact hnotread (hEq ▸ hf)
  obtain ⟨hlook2, hnd2, hmc2⟩ :=
    readFold_preserves host readList st1 hks (show getDocument st1.documents d.filename = some { d with marked := false } from hlook1) hnd1 hmc1
  set st2 : ManagerState := List.foldl (readFileCb host) st1 readList with hst2_def
  have hd1mem : ({ d with marked := false } : GrammarDocument) ∈ st2.documents :=
    mem_of_getDocument hlook2
  obtain ⟨A, B, hAB⟩ := List.append_of_mem hd1mem
  have hAne : ∀ e ∈ A, e.filename ≠ d.filename := by
    intro e heA hEq
    have h := hnd2
    rw [hAB, List.map_append, List.map_cons] at h
    have hdisj := (List.nodup_append.mp h).2.2
    have hin : e.filename ∈ A.map (fun e => e.filename) :=
      List.mem_map_of_mem (fun e => e.filename) heA
    exact (hdisj hin) (hEq ▸ List.mem_cons_self _ _)
  have hAcond : ∀ e ∈ A, (!e.marked && !e.isOpenOnClient) = true →
      normalizeFilename host (.path e.filename) ≠ d.filename := by
    intro e heA hcond hEq2
    have hand := hcond
    simp only [Bool.and_eq_true, Bool.not_eq_true'] at hand
    have hm : e.marked = false := hand.1
    have hc := hmc2 e (by rw [hAB]; exact List.mem_append_left _ heA) hm
    have hnf : normalizeFilename host (.path e.filename) = e.filename := by
      simpa [normalizeFilename] using hc
    rw [hnf] at hEq2
    exact hAne e heA hEq2
  rw [hAB, List.foldl_append, List.foldl_cons]
  have hP1 : getDocument (List.foldl (sweepStep host) st2 A).documents d.filename =
      some { d with marked := false } := by
    rw [sweepFold_preserves_lookup host A st2 d.filename hAcond]
    exact hlook2
  have hcond1 : (!({ d with marked := false } : GrammarDocument).marked &&
      !({ d with marked := false } : GrammarDocument).isOpenOnClient) = true := by
    simp [hcli]
  have hnorm1 : normalizeFilename host
      (.path ({ d with marked := false } : GrammarDocument).filename) =
      ({ d with marked := false } : GrammarDocument).filename := by
    simpa [normalizeFilename] using hcanon d hmem
  have hpivot := closeOp_sweep_removes host (List.foldl (sweepStep host) st2 A)
    { d with marked := false } hnorm1 hP1 hsrv hcli
  have hstep : sweepStep host (List.foldl (sweepStep host) st2 A)
      { d with marked := false } =
      closeOp host (List.foldl (sweepStep host) st2 A)
        (.path ({ d with marked := false } : GrammarDocument).filename) := by
    unfold sweepStep
    rw [if_pos hcond1]
  rw [hstep]
  exact sweepFold_none_grammar host B _ d.filename hpivot.1 hpivot.2

end GrammarkdownServer

namespace GrammarkdownServer

/-- C5: a document that is registered but not client-open (e.g. one that a
previous rebuild's read-callback opened server-side only), is not a root
(roots are exactly the client-open documents), and is not read back by the
compiler during a later rebuild, is removed from the registry by that
rebuild's mark-and-sweep pass: the mark phase resets it to `marked = false`,
nothing re-marks it, and the sweep closes it server-side, which deletes it
since it is not open on the client.  (Registry keys are assumed pairwise
distinct and canonical, which the manager maintains.) -/
theorem c5_sweep_reclamation (host : ManagerHost) (readList : List String)
    (st : ManagerState) (d : GrammarDocument)
    (hmem : d ∈ st.documents)
    (hcli : d.isOpenOnClient = false) (hsrv : d.isOpenOnServer = true)
    (hnotread : d.filename ∉ readList)
    (hnodup : (st.documents.map (fun e => e.filename)).Nodup)
    (hcanon : ∀ e ∈ st.documents,
      host.normalizeFile (host.resolveFile e.filename) = e.filename) :
    getDocument (refreshGrammar host readList st).documents d.filename = none :=
  (refreshGrammar_sweeps host readList st d hmem hcli hsrv hnotread hnodup
    hcanon).1

/-- Witness for `c5_sweep_reclamation`: the server-only document `"dep"` is
gone after a rebuild that reads nothing. -/
theorem c5_sweep_reclamation_witness :
    getDocument (refreshGrammar idHost [] serverOnlyState).documents "dep" = none :=
  c5_sweep_reclamation idHost [] serverOnlyState serverOnlyDoc
    (by decide) rfl rfl (by decide) (by decide) (by decide)

/-- C10: when the `grammar` accessor triggers a rebuild and that rebuild's
sweep closes (removes) at least one document — here witnessed by a registered
non-client-open document whose key the compiler does not read back — the
`close` inside the sweep calls `invalidateGrammar()` after `refreshGrammar`
has already assigned `_grammar`, so the accessor returns `undefined` (`none`)
instead of the freshly built grammar. -/
theorem c10_sweep_invalidates_fresh_grammar (host : ManagerHost)
    (readList : List String) (st : ManagerState) (d : GrammarDocument)
    (hg : st.grammar = none)
    (hmem : d ∈ st.documents)
    (hcli : d.isOpenOnClient = false) (hsrv : d.isOpenOnServer = true)
    (hnotread : d.filename ∉ readList)
    (hnodup : (st.documents.map (fun e => e.filename)).Nodup)
    (hcanon : ∀ e ∈ st.documents,
      host.normalizeFile (host.resolveFile e.filename) = e.filename) :
    (grammarGet host readList st).1 = none := by
  have h := refreshGrammar_sweeps host readList st d hmem hcli hsrv hnotread
    hnodup hcanon
  unfold grammarGet
  rw [hg]
  exact h.2

/-- Witness for `c10_sweep_invalidates_fresh_grammar`: with `"dep"` registered
server-only, the grammar accessor that triggers the rebuild returns `none`. -/
theorem c10_sweep_invalidates_fresh_grammar_witness :
    (grammarGet idHost [] serverOnlyState).1 = none :=
  c10_sweep_invalidates_fresh_grammar idHost [] serverOnlyState serverOnlyDoc
    rfl (by decide) rfl rfl (by decide) (by decide) (by decide)

end GrammarkdownServer
